import Mathlib

/-!
Shallow embedding of the ChaiScript engine orchestration layer
(`include/chaiscript/language/chaiscript_engine.hpp`, class `ChaiScript_System`).

The external collaborators (the file system, `ChaiScript_Parser::parse`, and
`eval_token` over the dispatch engine) are opaque to this header; they are
modelled as components of a `World` record.  The engine functions `do_eval`,
`load_file`, `eval_file`, `use` and `build_eval_system` are translated from the
source, threading the engine state (`loaded_files`, the reserved-word list)
explicitly and emitting a trace of observable events, each tagged with the lock
context (recursive `use_mutex` depth, exclusive/shared hold on the
reader-writer `mutex`) in force when the event happens.  Acquiring a lock that
the thread itself already holds in a conflicting mode (the self-deadlock cases
of a non-recursive `boost::shared_mutex`) is modelled by the whole computation
returning `none`.
-/

namespace ChaiScript

/-- Source text, a C++ `std::string` payload, modelled as a list of bytes. -/
abbrev Src := List Nat

abbrev Filename := String

/-- A `Boxed_Value`: default-constructed (empty) or carrying some payload. -/
inductive BValue where
  | empty : BValue
  | box : Nat → BValue
deriving DecidableEq, Repr

/-- Exceptions that can cross the engine boundary (everything except the
`Return_Value` control-flow signal, which `do_eval` absorbs). -/
inductive Err where
  | cannotOpen (msg : String)
  | parseError (msg : String)
  | evalError (msg : String)
deriving DecidableEq, Repr

/-- Outcome of `ChaiScript_Parser::parse`: returns `true`, returns `false`,
or throws. -/
inductive ParseOutcome where
  | success : ParseOutcome
  | noMatch : ParseOutcome
  | thrown (e : Err) : ParseOutcome
deriving DecidableEq, Repr

/-- Outcome of `eval_token` on a parsed tree: a value, a thrown
`Return_Value` signal carrying a value, or a thrown error. -/
inductive EvalOutcome where
  | val (v : BValue) : EvalOutcome
  | ret (v : BValue) : EvalOutcome
  | thrown (e : Err) : EvalOutcome
deriving DecidableEq, Repr

/-- The engine's external collaborators: the file system (`none` = the file
cannot be opened), the parser, the evaluator, and the prelude source text.
The parser and evaluator outcomes depend only on the input text, since the
syntax tree is a function of the text. -/
structure World where
  fs : Filename → Option Src
  parse : Src → ParseOutcome
  evalTok : Src → EvalOutcome
  chaiscript_prelude : Src

/-- Locks held by the current thread: recursion depth on the recursive
`use_mutex`, exclusive hold on the shared `mutex`, and shared-hold depth on
the shared `mutex`. -/
structure LockCtx where
  useDepth : Nat
  uniqueHeld : Bool
  sharedDepth : Nat
deriving DecidableEq, Repr

/-- Acquiring `unique_lock<shared_mutex>` self-deadlocks if this thread
already holds the mutex in either mode. -/
def lockUnique (c : LockCtx) : Option LockCtx :=
  if c.uniqueHeld || c.sharedDepth ≠ 0 then none
  else some { c with uniqueHeld := true }

def unlockUnique (c : LockCtx) : LockCtx :=
  { c with uniqueHeld := false }

/-- Acquiring `shared_lock<shared_mutex>` self-deadlocks if this thread holds
the mutex exclusively. -/
def lockShared (c : LockCtx) : Option LockCtx :=
  if c.uniqueHeld then none
  else some { c with sharedDepth := c.sharedDepth + 1 }

def unlockShared (c : LockCtx) : LockCtx :=
  { c with sharedDepth := c.sharedDepth - 1 }

/-- A `lock_guard<recursive_mutex>`: reentrant, always succeeds for the
holding thread. -/
def lockUseMutex (c : LockCtx) : LockCtx :=
  { c with useDepth := c.useDepth + 1 }

/-- Observable engine actions. -/
inductive Act where
  | syncCache : Act
  | insert (n : Filename) : Act
  | parseStep (n : Filename) (input : Src) : Act
  | evalStep (n : Filename) (input : Src) : Act
  | readFile (n : Filename) : Act
  | checkLoaded (n : Filename) : Act
  | addReserved (tok : String) : Act
  | addObj (nm : String) : Act
deriving DecidableEq, Repr

/-- A trace event: an action together with the locks held when it runs. -/
structure Event where
  act : Act
  locks : LockCtx
deriving DecidableEq, Repr

/-- Engine-instance state touched by this layer: the `loaded_files` set and
the reserved words registered on the dispatch engine. -/
structure EngineState where
  loaded_files : List Filename
  reserved_words : List String
deriving DecidableEq, Repr

/-- Model of `std::set<std::string>::insert`: inserts if absent, no change (and no
invalidation of existing entries) when present. -/
def setInsert (s : List Filename) (n : Filename) : List Filename :=
  if n ∈ s then s else s ++ [n]

/-- Result of an engine entry point: the returned value or propagated
exception, the final engine state, and the event trace.  The outer `Option`
is `none` on self-deadlock. -/
abbrev Outcome := Except Err BValue × EngineState × List Event

/-- Model of `std::string ret_val (v.empty() ? std::string() : std::string(v.begin(), v.end()).c_str())`:
constructing from `.c_str()` truncates the bytes at the first NUL. -/
def cstr (v : Src) : Src :=
  if v = [] then [] else v.takeWhile (fun b => b ≠ 0)

/-- Model of `ChaiScript_System::load_file`: open the file (throwing
`"Can not open: " + filename` on failure), read all bytes, and build the
returned `std::string` through `.c_str()`. -/
def load_file (w : World) (filename : Filename) : Except Err Src :=
  match w.fs filename with
  | none => Except.error (Err.cannotOpen ("Can not open: " ++ filename))
  | some v => Except.ok (cstr v)

/-- Model of `ChaiScript_System::do_eval`: sync the cache, take the unique lock,
insert `filename` into `loaded_files`, parse (the parser is handed the stored
copy of the name), release the unique lock before `eval_token`, absorb a
thrown `Return_Value` into the result, sync the cache again, and return.
Thrown errors propagate; the RAII locks are released on unwind. -/
def do_eval (w : World) (s : EngineState) (c : LockCtx) (input : Src)
    (filename : Filename) : Option Outcome :=
  match lockUnique c with
  | none => none
  | some c1 =>
    let s1 : EngineState := { s with loaded_files := setInsert s.loaded_files filename }
    let ev1 : List Event :=
      [⟨Act.syncCache, c⟩, ⟨Act.insert filename, c1⟩, ⟨Act.parseStep filename input, c1⟩]
    match w.parse input with
    | ParseOutcome.thrown e => some (Except.error e, s1, ev1)
    | ParseOutcome.noMatch => some (Except.ok BValue.empty, s1, ev1 ++ [⟨Act.syncCache, c1⟩])
    | ParseOutcome.success =>
      let c2 := unlockUnique c1
      let ev2 := ev1 ++ [⟨Act.evalStep filename input, c2⟩]
      match w.evalTok input with
      | EvalOutcome.val v => some (Except.ok v, s1, ev2 ++ [⟨Act.syncCache, c2⟩])
      | EvalOutcome.ret v => some (Except.ok v, s1, ev2 ++ [⟨Act.syncCache, c2⟩])
      | EvalOutcome.thrown e => some (Except.error e, s1, ev2)

/-- Model of `ChaiScript_System::eval_file`: `do_eval(load_file(filename), filename)`. -/
def eval_file (w : World) (s : EngineState) (c : LockCtx) (filename : Filename) :
    Option Outcome :=
  match load_file w filename with
  | Except.error e => some (Except.error e, s, [])
  | Except.ok content =>
    match do_eval w s c content filename with
    | none => none
    | some (r, s2, ev) => some (r, s2, ⟨Act.readFile filename, c⟩ :: ev)

/-- Model of `ChaiScript_System::use`: take the recursive `use_mutex` for the whole
call, take a shared lock on `mutex`, check `loaded_files.count(filename)`;
if absent, release only the shared lock and run `eval_file`; if present,
just sync the cache. -/
def use (w : World) (s : EngineState) (c : LockCtx) (filename : Filename) :
    Option (Except Err Unit × EngineState × List Event) :=
  let c1 := lockUseMutex c
  match lockShared c1 with
  | none => none
  | some c2 =>
    if filename ∈ s.loaded_files then
      some (Except.ok (), s, [⟨Act.checkLoaded filename, c2⟩, ⟨Act.syncCache, c2⟩])
    else
      let c3 := unlockShared c2
      match eval_file w s c3 filename with
      | none => none
      | some (r, s2, ev) =>
        some (r.map (fun _ => ()), s2, ⟨Act.checkLoaded filename, c2⟩ :: ev)

/-- Model of `ChaiScript_System::eval` and `operator()`: `do_eval` with the default
`"__EVAL__"` unit name. -/
def eval (w : World) (s : EngineState) (c : LockCtx) (input : Src) : Option Outcome :=
  do_eval w s c input "__EVAL__"

/-- The sixteen `add_reserved_word` calls of `build_eval_system`, in source
order. -/
def reserved_word_list : List String :=
  ["def", "fun", "while", "for", "if", "else", "&&", "||", ",", ":=",
   "var", "return", "break", "true", "false", "_"]

/-- The named `engine.add` registrations of `build_eval_system`, in source
order (after the bootstrap module). -/
def registered_names : List String :=
  ["dump_system", "dump_object", "is_type", "type_name", "function_exists",
   "Vector", "string", "Map", "Pair", "use", "eval"]

/-- Model of `ChaiScript_System::build_eval_system`: register the sixteen reserved
words, add the bootstrap module and the named host functions/types, then
evaluate the prelude under the unit name `"standard prelude"`. -/
def build_eval_system (w : World) (s : EngineState) (c : LockCtx) : Option Outcome :=
  let s1 : EngineState :=
    { s with reserved_words := s.reserved_words ++ reserved_word_list }
  let ev1 : List Event :=
    reserved_word_list.map (fun t => ⟨Act.addReserved t, c⟩) ++
      (⟨Act.addObj "bootstrap", c⟩ :: registered_names.map (fun nm => ⟨Act.addObj nm, c⟩))
  match do_eval w s1 c w.chaiscript_prelude "standard prelude" with
  | none => none
  | some (r, s2, ev) => some (r, s2, ev1 ++ ev)

/-- Count the events of a trace whose action satisfies `p`. -/
def countAct (ev : List Event) (p : Act → Bool) : Nat :=
  (ev.filter (fun e => p e.act)).length

/-- Is this action an evaluation step of unit `n`? -/
def isEvalOf (n : Filename) : Act → Bool
  | Act.evalStep m _ => m = n
  | _ => false

/-- Is this action a file read of unit `n`? -/
def isReadOf (n : Filename) : Act → Bool
  | Act.readFile m => m = n
  | _ => false

/-- Is this action part of parsing/evaluating some unit? -/
def isParseLike : Act → Bool
  | Act.parseStep _ _ => true
  | Act.evalStep _ _ => true
  | _ => false

/-- The reserved words registered along a trace, in order. -/
def reservedOf (ev : List Event) : List String :=
  ev.filterMap (fun e =>
    match e.act with
    | Act.addReserved t => some t
    | _ => none)

/-- A concrete world for witnesses: one readable file `"a.script"`, a parser
that succeeds, an evaluator producing `box 7`. -/
def w0 : World :=
  { fs := fun n => if n = "a.script" then some [104, 105] else none,
    parse := fun _ => ParseOutcome.success,
    evalTok := fun _ => EvalOutcome.val (BValue.box 7),
    chaiscript_prelude := [112] }

/-- A world whose evaluator always throws a `Return_Value` signal. -/
def wRet : World :=
  { fs := fun _ => none,
    parse := fun _ => ParseOutcome.success,
    evalTok := fun _ => EvalOutcome.ret (BValue.box 3),
    chaiscript_prelude := [] }

/-- A world whose parser always throws a parse error. -/
def wErr : World :=
  { fs := fun n => if n = "b.script" then some [98] else none,
    parse := fun _ => ParseOutcome.thrown (Err.parseError "bad"),
    evalTok := fun _ => EvalOutcome.val BValue.empty,
    chaiscript_prelude := [] }

/-! ## Helper lemmas -/

theorem mem_setInsert_self (l : List Filename) (n : Filename) : n ∈ setInsert l n := by
  by_cases h : n ∈ l <;> simp [setInsert, h]

theorem mem_setInsert_of_mem (l : List Filename) (n y : Filename) (h : y ∈ l) :
    y ∈ setInsert l n := by
  by_cases hm : n ∈ l <;> simp [setInsert, hm, h]

/-- Calling `use` on an already-loaded unit: no deadlock, no read, no evaluation,
no state change — just the membership check and a cache sync. -/
theorem use_already_loaded (w : World) (s : EngineState) (d : Nat) (X : Filename)
    (h : X ∈ s.loaded_files) :
    use w s ⟨d, false, 0⟩ X =
      some (Except.ok (), s,
        [⟨Act.checkLoaded X, ⟨d + 1, false, 1⟩⟩, ⟨Act.syncCache, ⟨d + 1, false, 1⟩⟩]) := by
  simp [use, lockUseMutex, lockShared, h]

/-- The final engine state of any completed `do_eval` is the input state with
`filename` inserted into `loaded_files`. -/
theorem do_eval_state (w : World) (s : EngineState) (c : LockCtx) (input : Src)
    (n : Filename) (r : Except Err BValue) (s2 : EngineState) (ev : List Event)
    (hr : do_eval w s c input n = some (r, s2, ev)) :
    s2 = { s with loaded_files := setInsert s.loaded_files n } := by
  unfold do_eval at hr
  rcases h1 : lockUnique c with _ | c1 <;> rw [h1] at hr
  · simp at hr
  · rcases hp : w.parse input with _ | _ | e1 <;> rw [hp] at hr
    · rcases he : w.evalTok input with v | v | e2 <;> rw [he] at hr <;>
        simp at hr <;> exact hr.2.1.symm
    · simp at hr; exact hr.2.1.symm
    · simp at hr; exact hr.2.1.symm

/-- Any completed `do_eval` trace starts with the cache sync, the insertion of
the unit name, and the parse step, in that order. -/
theorem do_eval_trace_head (w : World) (s : EngineState) (c : LockCtx) (input : Src)
    (n : Filename) (r : Except Err BValue) (s2 : EngineState) (ev : List Event)
    (hr : do_eval w s c input n = some (r, s2, ev)) :
    (ev.map Event.act).take 3 = [Act.syncCache, Act.insert n, Act.parseStep n input] := by
  unfold do_eval at hr
  rcases h1 : lockUnique c with _ | c1 <;> rw [h1] at hr
  · simp at hr
  · rcases hp : w.parse input with _ | _ | e1 <;> rw [hp] at hr
    · rcases he : w.evalTok input with v | v | e2 <;> rw [he] at hr <;>
        simp at hr <;> rw [← hr.2.2] <;> rfl
    · simp at hr; rw [← hr.2.2]; rfl
    · simp at hr; rw [← hr.2.2]; rfl

/-! ## Claims -/

/-- C5: for every source text whose top-level evaluation ends in an unhandled
return signal, `do_eval` catches that signal and returns the signal's carried
value as the overall result; a bare top-level `return` is not an error. -/
theorem do_eval_absorbs_toplevel_return (w : World) (s : EngineState) (d : Nat)
    (input : Src) (n : Filename) (v : BValue)
    (hp : w.parse input = ParseOutcome.success)
    (he : w.evalTok input = EvalOutcome.ret v) :
    ∃ s2 ev, do_eval w s ⟨d, false, 0⟩ input n = some (Except.ok v, s2, ev) := by
  refine ⟨{ s with loaded_files := setInsert s.loaded_files n },
    [⟨Act.syncCache, ⟨d, false, 0⟩⟩, ⟨Act.insert n, ⟨d, true, 0⟩⟩,
     ⟨Act.parseStep n input, ⟨d, true, 0⟩⟩, ⟨Act.evalStep n input, ⟨d, false, 0⟩⟩,
     ⟨Act.syncCache, ⟨d, false, 0⟩⟩], ?_⟩
  simp [do_eval, lockUnique, unlockUnique, hp, he]

theorem do_eval_absorbs_toplevel_return_witness :
    wRet.parse [1] = ParseOutcome.success ∧
    wRet.evalTok [1] = EvalOutcome.ret (BValue.box 3) ∧
    ∃ s2 ev, do_eval wRet ⟨[], []⟩ ⟨0, false, 0⟩ [1] "u" =
      some (Except.ok (BValue.box 3), s2, ev) :=
  ⟨rfl, rfl, do_eval_absorbs_toplevel_return wRet ⟨[], []⟩ 0 [1] "u" (BValue.box 3) rfl rfl⟩

/-- C6: the result of a completed `do_eval` is an error exactly when parsing
threw that error, or parsing succeeded and evaluation threw it: every
parse/dispatch/type/IO failure propagates out unchanged, and the only
out-of-band outcome absorbed is the top-level return signal. -/
theorem do_eval_propagates_errors (w : World) (s : EngineState) (d : Nat)
    (input : Src) (n : Filename) (r : Except Err BValue) (s2 : EngineState)
    (ev : List Event) (e : Err)
    (hr : do_eval w s ⟨d, false, 0⟩ input n = some (r, s2, ev)) :
    r = Except.error e ↔
      (w.parse input = ParseOutcome.thrown e ∨
        (w.parse input = ParseOutcome.success ∧ w.evalTok input = EvalOutcome.thrown e)) := by
  unfold do_eval at hr
  rw [show lockUnique ⟨d, false, 0⟩ = some ⟨d, true, 0⟩ from rfl] at hr
  rcases hp : w.parse input with _ | _ | e1 <;> rw [hp] at hr
  · rcases he : w.evalTok input with v | v | e2 <;> rw [he] at hr <;>
      simp at hr <;> rw [← hr.1] <;> simp [he]
  · simp at hr; rw [← hr.1]; simp
  · simp at hr; rw [← hr.1]; simp


/-- C7: for every path that cannot be opened, `eval_file` fails with a
file-access error whose message includes that path, leaves the engine state
unchanged, and produces no events at all — evaluation of the file never
begins. -/
theorem eval_file_open_failure (w : World) (s : EngineState) (c : LockCtx)
    (p : Filename) (h : w.fs p = none) :
    eval_file w s c p =
      some (Except.error (Err.cannotOpen ("Can not open: " ++ p)), s, []) ∧
    ∃ pre post, "Can not open: " ++ p = pre ++ (p ++ post) := by
  constructor
  · simp [eval_file, load_file, h]
  · exact ⟨"Can not open: ", "", by simp⟩

theorem eval_file_open_failure_witness :
    w0.fs "missing" = none ∧
    (eval_file w0 ⟨[], []⟩ ⟨0, false, 0⟩ "missing" =
      some (Except.error (Err.cannotOpen ("Can not open: " ++ "missing")), ⟨[], []⟩, []) ∧
    ∃ pre post, "Can not open: " ++ "missing" = pre ++ ("missing" ++ post)) :=
  ⟨rfl, eval_file_open_failure w0 ⟨[], []⟩ ⟨0, false, 0⟩ "missing" rfl⟩

/-- The final engine state of `eval_file` is unchanged (open failure) or the
input state with the filename inserted. -/
theorem eval_file_state (w : World) (s : EngineState) (c : LockCtx) (n : Filename)
    (r : Except Err BValue) (s2 : EngineState) (ev : List Event)
    (hr : eval_file w s c n = some (r, s2, ev)) :
    s2 = s ∨ s2 = { s with loaded_files := setInsert s.loaded_files n } := by
  rcases hl : load_file w n with e | content
  · left
    simp [eval_file, hl] at hr
    exact hr.2.1.symm
  · rcases hd : do_eval w s c content n with _ | ⟨r1, s1, ev1⟩
    · simp [eval_file, hl, hd] at hr
    · simp [eval_file, hl, hd] at hr
      right
      rw [← hr.2.1]
      exact do_eval_state w s c content n r1 s1 ev1 hd

/-- The final engine state of `use` is unchanged or the input state with the
filename inserted. -/
theorem use_state (w : World) (s : EngineState) (c : LockCtx) (n : Filename)
    (r : Except Err Unit) (s2 : EngineState) (ev : List Event)
    (hr : use w s c n = some (r, s2, ev)) :
    s2 = s ∨ s2 = { s with loaded_files := setInsert s.loaded_files n } := by
  rcases hl : lockShared (lockUseMutex c) with _ | c2
  · simp [use, hl] at hr
  · by_cases hm : n ∈ s.loaded_files
    · simp [use, hl, hm] at hr
      left; exact hr.2.1.symm
    · rcases he : eval_file w s (unlockShared c2) n with _ | ⟨r1, s1, ev1⟩
      · simp [use, hl, hm, he] at hr
      · simp [use, hl, hm, he] at hr
        rcases eval_file_state w s (unlockShared c2) n r1 s1 ev1 he with h | h
        · left; rw [← hr.2.1]; exact h
        · right; rw [← hr.2.1]; exact h

/-- The final engine state of `build_eval_system`: the reserved words are
appended and the prelude's unit name is inserted. -/
theorem build_eval_system_state (w : World) (s : EngineState) (c : LockCtx)
    (r : Except Err BValue) (s2 : EngineState) (ev : List Event)
    (hr : build_eval_system w s c = some (r, s2, ev)) :
    s2 = ⟨setInsert s.loaded_files "standard prelude",
          s.reserved_words ++ reserved_word_list⟩ := by
  rcases hd : do_eval w { s with reserved_words := s.reserved_words ++ reserved_word_list } c
      w.chaiscript_prelude "standard prelude" with _ | ⟨r1, s1, ev1⟩
  · simp [build_eval_system, hd] at hr
  · simp [build_eval_system, hd] at hr
    rw [← hr.2.1,
      do_eval_state w _ c w.chaiscript_prelude "standard prelude" r1 s1 ev1 hd]

/-- C9: if parsing or evaluating a unit throws after `do_eval` has interned
its name, the name remains in the Loaded-Unit Set (the insert is not rolled
back on error), so every subsequent `use` of that unit on this engine
instance returns after only the membership check and a cache sync, without
re-reading or re-evaluating the file. -/
theorem failed_load_not_retried (w : World) (s : EngineState) (d : Nat)
    (input : Src) (X : Filename) (e : Err) (s2 : EngineState) (ev : List Event)
    (hr : do_eval w s ⟨d, false, 0⟩ input X = some (Except.error e, s2, ev)) :
    X ∈ s2.loaded_files ∧
    ∀ d2 : Nat, use w s2 ⟨d2, false, 0⟩ X =
      some (Except.ok (), s2,
        [⟨Act.checkLoaded X, ⟨d2 + 1, false, 1⟩⟩, ⟨Act.syncCache, ⟨d2 + 1, false, 1⟩⟩]) := by
  have hs := do_eval_state w s ⟨d, false, 0⟩ input X (Except.error e) s2 ev hr
  have hmem : X ∈ s2.loaded_files := by rw [hs]; exact mem_setInsert_self _ _
  exact ⟨hmem, fun d2 => use_already_loaded w s2 d2 X hmem⟩

theorem failed_load_not_retried_witness :
    do_eval wErr ⟨[], []⟩ ⟨0, false, 0⟩ [1] "u" =
      some (Except.error (Err.parseError "bad"), ⟨["u"], []⟩,
        [⟨Act.syncCache, ⟨0, false, 0⟩⟩, ⟨Act.insert "u", ⟨0, true, 0⟩⟩,
         ⟨Act.parseStep "u" [1], ⟨0, true, 0⟩⟩]) ∧
    "u" ∈ (⟨["u"], []⟩ : EngineState).loaded_files ∧
    use wErr ⟨["u"], []⟩ ⟨0, false, 0⟩ "u" =
      some (Except.ok (), ⟨["u"], []⟩,
        [⟨Act.checkLoaded "u", ⟨1, false, 1⟩⟩, ⟨Act.syncCache, ⟨1, false, 1⟩⟩]) :=
  ⟨rfl,
   (failed_load_not_retried wErr ⟨[], []⟩ 0 [1] "u" (Err.parseError "bad") _ _ rfl).1,
   (failed_load_not_retried wErr ⟨[], []⟩ 0 [1] "u" (Err.parseError "bad") _ _ rfl).2 0⟩

/-- C2: every completed evaluation of a source unit interns the unit name into
the Loaded-Unit Set before parsing begins (the trace starts with the cache
sync, the insertion, then the parse step) and the set handed to the parser
contains the name; membership is insert-once; and none of the engine
operations (`do_eval`, `eval_file`, `use`, `build_eval_system`) ever removes
an entry, so the set grows monotonically over the engine's lifetime. -/
theorem loaded_unit_set_interning_monotone :
    (∀ (w : World) (s : EngineState) (c : LockCtx) (input : Src) (n : Filename)
        (r : Except Err BValue) (s2 : EngineState) (ev : List Event),
      do_eval w s c input n = some (r, s2, ev) →
        (ev.map Event.act).take 3 = [Act.syncCache, Act.insert n, Act.parseStep n input] ∧
        n ∈ s2.loaded_files ∧
        (n ∈ s.loaded_files → s2.loaded_files = s.loaded_files) ∧
        (∀ y ∈ s.loaded_files, y ∈ s2.loaded_files)) ∧
    (∀ (w : World) (s : EngineState) (c : LockCtx) (n : Filename)
        (r : Except Err BValue) (s2 : EngineState) (ev : List Event),
      eval_file w s c n = some (r, s2, ev) → ∀ y ∈ s.loaded_files, y ∈ s2.loaded_files) ∧
    (∀ (w : World) (s : EngineState) (c : LockCtx) (n : Filename)
        (r : Except Err Unit) (s2 : EngineState) (ev : List Event),
      use w s c n = some (r, s2, ev) → ∀ y ∈ s.loaded_files, y ∈ s2.loaded_files) ∧
    (∀ (w : World) (s : EngineState) (c : LockCtx)
        (r : Except Err BValue) (s2 : EngineState) (ev : List Event),
      build_eval_system w s c = some (r, s2, ev) →
        ∀ y ∈ s.loaded_files, y ∈ s2.loaded_files) := by
  refine ⟨?_, ?_, ?_, ?_⟩
  · intro w s c input n r s2 ev hr
    have hs := do_eval_state w s c input n r s2 ev hr
    refine ⟨do_eval_trace_head w s c input n r s2 ev hr, ?_, ?_, ?_⟩
    · rw [hs]; exact mem_setInsert_self _ _
    · intro hm; rw [hs]; simp [setInsert, hm]
    · intro y hy; rw [hs]; exact mem_setInsert_of_mem _ _ _ hy
  · intro w s c n r s2 ev hr y hy
    rcases eval_file_state w s c n r s2 ev hr with h | h <;> rw [h]
    · exact hy
    · exact mem_setInsert_of_mem _ _ _ hy
  · intro w s c n r s2 ev hr y hy
    rcases use_state w s c n r s2 ev hr with h | h <;> rw [h]
    · exact hy
    · exact mem_setInsert_of_mem _ _ _ hy
  · intro w s c r s2 ev hr y hy
    rw [build_eval_system_state w s c r s2 ev hr]
    exact mem_setInsert_of_mem _ _ _ hy

theorem loaded_unit_set_interning_monotone_witness :
    do_eval w0 ⟨["x"], []⟩ ⟨0, false, 0⟩ [1] "a" =
      some (Except.ok (BValue.box 7), ⟨["x", "a"], []⟩,
        [⟨Act.syncCache, ⟨0, false, 0⟩⟩, ⟨Act.insert "a", ⟨0, true, 0⟩⟩,
         ⟨Act.parseStep "a" [1], ⟨0, true, 0⟩⟩, ⟨Act.evalStep "a" [1], ⟨0, false, 0⟩⟩,
         ⟨Act.syncCache, ⟨0, false, 0⟩⟩]) ∧
    (([⟨Act.syncCache, ⟨0, false, 0⟩⟩, ⟨Act.insert "a", ⟨0, true, 0⟩⟩,
       ⟨Act.parseStep "a" [1], ⟨0, true, 0⟩⟩, ⟨Act.evalStep "a" [1], ⟨0, false, 0⟩⟩,
       ⟨Act.syncCache, ⟨0, false, 0⟩⟩] : List Event).map Event.act).take 3 =
      [Act.syncCache, Act.insert "a", Act.parseStep "a" [1]] ∧
    "a" ∈ (⟨["x", "a"], []⟩ : EngineState).loaded_files :=
  ⟨rfl,
   (loaded_unit_set_interning_monotone.1 w0 ⟨["x"], []⟩ ⟨0, false, 0⟩ [1] "a" _ _ _ rfl).1,
   (loaded_unit_set_interning_monotone.1 w0 ⟨["x"], []⟩ ⟨0, false, 0⟩ [1] "a" _ _ _ rfl).2.1⟩

/-- First load through `use` when evaluation yields a value: full result. -/
theorem use_first_load_val (w : World) (s : EngineState) (d : Nat) (X : Filename)
    (content : Src) (v : BValue)
    (hX : X ∉ s.loaded_files) (hfs : w.fs X = some content)
    (hp : w.parse (cstr content) = ParseOutcome.success)
    (he : w.evalTok (cstr content) = EvalOutcome.val v) :
    use w s ⟨d, false, 0⟩ X =
      some (Except.ok (), { s with loaded_files := setInsert s.loaded_files X },
        [⟨Act.checkLoaded X, ⟨d + 1, false, 1⟩⟩, ⟨Act.readFile X, ⟨d + 1, false, 0⟩⟩,
         ⟨Act.syncCache, ⟨d + 1, false, 0⟩⟩, ⟨Act.insert X, ⟨d + 1, true, 0⟩⟩,
         ⟨Act.parseStep X (cstr content), ⟨d + 1, true, 0⟩⟩,
         ⟨Act.evalStep X (cstr content), ⟨d + 1, false, 0⟩⟩,
         ⟨Act.syncCache, ⟨d + 1, false, 0⟩⟩]) := by
  simp [use, eval_file, load_file, do_eval, lockUseMutex, lockShared, lockUnique,
    unlockShared, unlockUnique, Except.map, hX, hfs, hp, he]

/-- First load through `use` when evaluation throws a return signal. -/
theorem use_first_load_ret (w : World) (s : EngineState) (d : Nat) (X : Filename)
    (content : Src) (v : BValue)
    (hX : X ∉ s.loaded_files) (hfs : w.fs X = some content)
    (hp : w.parse (cstr content) = ParseOutcome.success)
    (he : w.evalTok (cstr content) = EvalOutcome.ret v) :
    use w s ⟨d, false, 0⟩ X =
      some (Except.ok (), { s with loaded_files := setInsert s.loaded_files X },
        [⟨Act.checkLoaded X, ⟨d + 1, false, 1⟩⟩, ⟨Act.readFile X, ⟨d + 1, false, 0⟩⟩,
         ⟨Act.syncCache, ⟨d + 1, false, 0⟩⟩, ⟨Act.insert X, ⟨d + 1, true, 0⟩⟩,
         ⟨Act.parseStep X (cstr content), ⟨d + 1, true, 0⟩⟩,
         ⟨Act.evalStep X (cstr content), ⟨d + 1, false, 0⟩⟩,
         ⟨Act.syncCache, ⟨d + 1, false, 0⟩⟩]) := by
  simp [use, eval_file, load_file, do_eval, lockUseMutex, lockShared, lockUnique,
    unlockShared, unlockUnique, Except.map, hX, hfs, hp, he]

/-- First load through `use` when evaluation throws an error. -/
theorem use_first_load_thrown (w : World) (s : EngineState) (d : Nat) (X : Filename)
    (content : Src) (e : Err)
    (hX : X ∉ s.loaded_files) (hfs : w.fs X = some content)
    (hp : w.parse (cstr content) = ParseOutcome.success)
    (he : w.evalTok (cstr content) = EvalOutcome.thrown e) :
    use w s ⟨d, false, 0⟩ X =
      some (Except.error e, { s with loaded_files := setInsert s.loaded_files X },
        [⟨Act.checkLoaded X, ⟨d + 1, false, 1⟩⟩, ⟨Act.readFile X, ⟨d + 1, false, 0⟩⟩,
         ⟨Act.syncCache, ⟨d + 1, false, 0⟩⟩, ⟨Act.insert X, ⟨d + 1, true, 0⟩⟩,
         ⟨Act.parseStep X (cstr content), ⟨d + 1, true, 0⟩⟩,
         ⟨Act.evalStep X (cstr content), ⟨d + 1, false, 0⟩⟩]) := by
  simp [use, eval_file, load_file, do_eval, lockUseMutex, lockShared, lockUnique,
    unlockShared, unlockUnique, Except.map, hX, hfs, hp, he]

/-- C1: for every unit name, the first `use` (name absent from the
Loaded-Unit Set) reads the file and evaluates it — exactly one read event and
one evaluation event — and leaves the name in the set; and every call to
`use` that finds the name present performs nothing beyond the membership
check and a cache sync, returning with the state unchanged and without
re-reading or re-evaluating the file.  Together with the set's monotonicity
this makes sequential `use` evaluate the unit exactly once per engine
instance. -/
theorem use_loads_and_evaluates_once (w : World) (s : EngineState) (d : Nat)
    (X : Filename) (content : Src)
    (hX : X ∉ s.loaded_files) (hfs : w.fs X = some content)
    (hp : w.parse (cstr content) = ParseOutcome.success) :
    (∃ r s2 ev, use w s ⟨d, false, 0⟩ X = some (r, s2, ev) ∧
      countAct ev (isReadOf X) = 1 ∧ countAct ev (isEvalOf X) = 1 ∧
      X ∈ s2.loaded_files) ∧
    (∀ (s3 : EngineState), X ∈ s3.loaded_files → ∀ d2 : Nat,
      use w s3 ⟨d2, false, 0⟩ X =
        some (Except.ok (), s3,
          [⟨Act.checkLoaded X, ⟨d2 + 1, false, 1⟩⟩, ⟨Act.syncCache, ⟨d2 + 1, false, 1⟩⟩])) := by
  refine ⟨?_, fun s3 h3 d2 => use_already_loaded w s3 d2 X h3⟩
  rcases he : w.evalTok (cstr content) with v | v | e
  · refine ⟨_, _, _, use_first_load_val w s d X content v hX hfs hp he, ?_, ?_,
      mem_setInsert_self _ _⟩ <;> simp [countAct, isReadOf, isEvalOf]
  · refine ⟨_, _, _, use_first_load_ret w s d X content v hX hfs hp he, ?_, ?_,
      mem_setInsert_self _ _⟩ <;> simp [countAct, isReadOf, isEvalOf]
  · refine ⟨_, _, _, use_first_load_thrown w s d X content e hX hfs hp he, ?_, ?_,
      mem_setInsert_self _ _⟩ <;> simp [countAct, isReadOf, isEvalOf]

theorem use_loads_and_evaluates_once_witness :
    "a.script" ∉ (⟨[], []⟩ : EngineState).loaded_files ∧
    w0.fs "a.script" = some [104, 105] ∧
    w0.parse (cstr [104, 105]) = ParseOutcome.success ∧
    ((∃ r s2 ev, use w0 ⟨[], []⟩ ⟨0, false, 0⟩ "a.script" = some (r, s2, ev) ∧
      countAct ev (isReadOf "a.script") = 1 ∧ countAct ev (isEvalOf "a.script") = 1 ∧
      "a.script" ∈ s2.loaded_files) ∧
    (∀ (s3 : EngineState), "a.script" ∈ s3.loaded_files → ∀ d2 : Nat,
      use w0 s3 ⟨d2, false, 0⟩ "a.script" =
        some (Except.ok (), s3,
          [⟨Act.checkLoaded "a.script", ⟨d2 + 1, false, 1⟩⟩,
           ⟨Act.syncCache, ⟨d2 + 1, false, 1⟩⟩]))) :=
  ⟨by simp, rfl, rfl,
   use_loads_and_evaluates_once w0 ⟨[], []⟩ 0 "a.script" [104, 105] (by simp) rfl rfl⟩

/-- C3 counterexample: in a concrete first load of `"a.script"` on a fresh
engine, the evaluation step of the unit runs while the exclusive recursive
`use` section is held (`useDepth = 1`), refuting the claim that the
parse+evaluate step of a first load is never executed under the exclusive
section. -/
theorem use_exclusive_section_counterexample :
    use w0 ⟨[], []⟩ ⟨0, false, 0⟩ "a.script" =
      some (Except.ok (), ⟨["a.script"], []⟩,
        [⟨Act.checkLoaded "a.script", ⟨1, false, 1⟩⟩,
         ⟨Act.readFile "a.script", ⟨1, false, 0⟩⟩,
         ⟨Act.syncCache, ⟨1, false, 0⟩⟩,
         ⟨Act.insert "a.script", ⟨1, true, 0⟩⟩,
         ⟨Act.parseStep "a.script" [104, 105], ⟨1, true, 0⟩⟩,
         ⟨Act.evalStep "a.script" [104, 105], ⟨1, false, 0⟩⟩,
         ⟨Act.syncCache, ⟨1, false, 0⟩⟩]) ∧
    (⟨Act.evalStep "a.script" [104, 105], ⟨1, false, 0⟩⟩ : Event) ∈
      ([⟨Act.checkLoaded "a.script", ⟨1, false, 1⟩⟩,
        ⟨Act.readFile "a.script", ⟨1, false, 0⟩⟩,
        ⟨Act.syncCache, ⟨1, false, 0⟩⟩,
        ⟨Act.insert "a.script", ⟨1, true, 0⟩⟩,
        ⟨Act.parseStep "a.script" [104, 105], ⟨1, true, 0⟩⟩,
        ⟨Act.evalStep "a.script" [104, 105], ⟨1, false, 0⟩⟩,
        ⟨Act.syncCache, ⟨1, false, 0⟩⟩] : List Event) ∧
    isEvalOf "a.script" (Act.evalStep "a.script" [104, 105]) = true ∧
    (⟨1, false, 0⟩ : LockCtx).useDepth ≠ 0 := by
  refine ⟨?_, by simp, rfl, by simp⟩
  simp [use, eval_file, load_file, do_eval, cstr, w0, setInsert, lockUseMutex,
    lockShared, lockUnique, unlockShared, unlockUnique, Except.map]

/-- C3 amended: the function `use` serializes the first-load decision with the exclusive
reentrant section, but holds that section for the entire call — every event
of a first load, including the file read and the evaluation step, runs at
`useDepth = d + 1`.  What is released before the read and evaluation is only
the shared reader-writer lock: the check runs at `sharedDepth = 1`, and the
read and evaluation events run with no reader-writer lock held at all. -/
theorem use_holds_exclusive_section_across_load (w : World) (s : EngineState)
    (d : Nat) (X : Filename) (content : Src)
    (hX : X ∉ s.loaded_files) (hfs : w.fs X = some content)
    (hp : w.parse (cstr content) = ParseOutcome.success) :
    ∃ r s2 ev, use w s ⟨d, false, 0⟩ X = some (r, s2, ev) ∧
      (∀ e ∈ ev, e.locks.useDepth = d + 1) ∧
      ⟨Act.evalStep X (cstr content), ⟨d + 1, false, 0⟩⟩ ∈ ev ∧
      (∀ e ∈ ev, isEvalOf X e.act = true →
        e.locks.uniqueHeld = false ∧ e.locks.sharedDepth = 0) ∧
      (∀ e ∈ ev, isReadOf X e.act = true →
        e.locks.uniqueHeld = false ∧ e.locks.sharedDepth = 0) ∧
      ev.head? = some ⟨Act.checkLoaded X, ⟨d + 1, false, 1⟩⟩ := by
  rcases he : w.evalTok (cstr content) with v | v | e
  · refine ⟨_, _, _, use_first_load_val w s d X content v hX hfs hp he,
      ?_, by simp, ?_, ?_, rfl⟩ <;> simp [isEvalOf, isReadOf]
  · refine ⟨_, _, _, use_first_load_ret w s d X content v hX hfs hp he,
      ?_, by simp, ?_, ?_, rfl⟩ <;> simp [isEvalOf, isReadOf]
  · refine ⟨_, _, _, use_first_load_thrown w s d X content e hX hfs hp he,
      ?_, by simp, ?_, ?_, rfl⟩ <;> simp [isEvalOf, isReadOf]

theorem use_holds_exclusive_section_across_load_witness :
    "a.script" ∉ (⟨[], []⟩ : EngineState).loaded_files ∧
    w0.fs "a.script" = some [104, 105] ∧
    w0.parse (cstr [104, 105]) = ParseOutcome.success ∧
    (∃ r s2 ev, use w0 ⟨[], []⟩ ⟨0, false, 0⟩ "a.script" = some (r, s2, ev) ∧
      (∀ e ∈ ev, e.locks.useDepth = 0 + 1) ∧
      ⟨Act.evalStep "a.script" (cstr [104, 105]), ⟨0 + 1, false, 0⟩⟩ ∈ ev ∧
      (∀ e ∈ ev, isEvalOf "a.script" e.act = true →
        e.locks.uniqueHeld = false ∧ e.locks.sharedDepth = 0) ∧
      (∀ e ∈ ev, isReadOf "a.script" e.act = true →
        e.locks.uniqueHeld = false ∧ e.locks.sharedDepth = 0) ∧
      ev.head? = some ⟨Act.checkLoaded "a.script", ⟨0 + 1, false, 1⟩⟩) :=
  ⟨by simp, rfl, rfl,
   use_holds_exclusive_section_across_load w0 ⟨[], []⟩ 0 "a.script" [104, 105]
     (by simp) rfl rfl⟩

/-- C4: during a first load of unit X through `use`, the evaluation step runs
after X was interned and with the unique lock released; a nested
`use X` issued at exactly that point (same thread, `useDepth` one deeper)
does not deadlock: the recursive mutex admits the reentrant acquisition, the
shared lock is granted, and since X is already in the Loaded-Unit Set the
call takes the already-loaded branch and returns after a cache sync without
starting a second evaluation. -/
theorem reentrant_self_use_no_deadlock (w : World) (s : EngineState) (d : Nat)
    (X : Filename) (content : Src)
    (hX : X ∉ s.loaded_files) (hfs : w.fs X = some content)
    (hp : w.parse (cstr content) = ParseOutcome.success) :
    ∃ r ev, use w s ⟨d, false, 0⟩ X =
        some (r, { s with loaded_files := setInsert s.loaded_files X }, ev) ∧
      ⟨Act.evalStep X (cstr content), ⟨d + 1, false, 0⟩⟩ ∈ ev ∧
      use w { s with loaded_files := setInsert s.loaded_files X } ⟨d + 1, false, 0⟩ X =
        some (Except.ok (), { s with loaded_files := setInsert s.loaded_files X },
          [⟨Act.checkLoaded X, ⟨d + 2, false, 1⟩⟩, ⟨Act.syncCache, ⟨d + 2, false, 1⟩⟩]) := by
  have hnested := use_already_loaded w { s with loaded_files := setInsert s.loaded_files X }
      (d + 1) X (mem_setInsert_self _ _)
  rcases he : w.evalTok (cstr content) with v | v | e
  · exact ⟨_, _, use_first_load_val w s d X content v hX hfs hp he, by simp, hnested⟩
  · exact ⟨_, _, use_first_load_ret w s d X content v hX hfs hp he, by simp, hnested⟩
  · exact ⟨_, _, use_first_load_thrown w s d X content e hX hfs hp he, by simp, hnested⟩

theorem reentrant_self_use_no_deadlock_witness :
    "a.script" ∉ (⟨[], []⟩ : EngineState).loaded_files ∧
    w0.fs "a.script" = some [104, 105] ∧
    w0.parse (cstr [104, 105]) = ParseOutcome.success ∧
    (∃ r ev, use w0 ⟨[], []⟩ ⟨0, false, 0⟩ "a.script" =
        some (r, { loaded_files := setInsert [] "a.script", reserved_words := [] }, ev) ∧
      ⟨Act.evalStep "a.script" (cstr [104, 105]), ⟨0 + 1, false, 0⟩⟩ ∈ ev ∧
      use w0 { loaded_files := setInsert [] "a.script", reserved_words := [] }
          ⟨0 + 1, false, 0⟩ "a.script" =
        some (Except.ok (), { loaded_files := setInsert [] "a.script", reserved_words := [] },
          [⟨Act.checkLoaded "a.script", ⟨0 + 2, false, 1⟩⟩,
           ⟨Act.syncCache, ⟨0 + 2, false, 1⟩⟩])) :=
  ⟨by simp, rfl, rfl,
   reentrant_self_use_no_deadlock w0 ⟨[], []⟩ 0 "a.script" [104, 105] (by simp) rfl rfl⟩

/-- Running `do_eval` with a clean lock context always completes (no self-deadlock). -/
theorem do_eval_clean_total (w : World) (s : EngineState) (d : Nat) (input : Src)
    (n : Filename) :
    ∃ r s2 ev, do_eval w s ⟨d, false, 0⟩ input n = some (r, s2, ev) := by
  rcases hp : w.parse input with _ | _ | e1
  · rcases he : w.evalTok input with v | v | e2
    · exact ⟨Except.ok v, { s with loaded_files := setInsert s.loaded_files n },
        [⟨Act.syncCache, ⟨d, false, 0⟩⟩, ⟨Act.insert n, ⟨d, true, 0⟩⟩,
         ⟨Act.parseStep n input, ⟨d, true, 0⟩⟩, ⟨Act.evalStep n input, ⟨d, false, 0⟩⟩,
         ⟨Act.syncCache, ⟨d, false, 0⟩⟩],
        by simp [do_eval, lockUnique, unlockUnique, hp, he]⟩
    · exact ⟨Except.ok v, { s with loaded_files := setInsert s.loaded_files n },
        [⟨Act.syncCache, ⟨d, false, 0⟩⟩, ⟨Act.insert n, ⟨d, true, 0⟩⟩,
         ⟨Act.parseStep n input, ⟨d, true, 0⟩⟩, ⟨Act.evalStep n input, ⟨d, false, 0⟩⟩,
         ⟨Act.syncCache, ⟨d, false, 0⟩⟩],
        by simp [do_eval, lockUnique, unlockUnique, hp, he]⟩
    · exact ⟨Except.error e2, { s with loaded_files := setInsert s.loaded_files n },
        [⟨Act.syncCache, ⟨d, false, 0⟩⟩, ⟨Act.insert n, ⟨d, true, 0⟩⟩,
         ⟨Act.parseStep n input, ⟨d, true, 0⟩⟩, ⟨Act.evalStep n input, ⟨d, false, 0⟩⟩],
        by simp [do_eval, lockUnique, unlockUnique, hp, he]⟩
  · exact ⟨Except.ok BValue.empty, { s with loaded_files := setInsert s.loaded_files n },
      [⟨Act.syncCache, ⟨d, false, 0⟩⟩, ⟨Act.insert n, ⟨d, true, 0⟩⟩,
       ⟨Act.parseStep n input, ⟨d, true, 0⟩⟩, ⟨Act.syncCache, ⟨d, true, 0⟩⟩],
      by simp [do_eval, lockUnique, hp]⟩
  · exact ⟨Except.error e1, { s with loaded_files := setInsert s.loaded_files n },
      [⟨Act.syncCache, ⟨d, false, 0⟩⟩, ⟨Act.insert n, ⟨d, true, 0⟩⟩,
       ⟨Act.parseStep n input, ⟨d, true, 0⟩⟩],
      by simp [do_eval, lockUnique, hp]⟩

/-- Every event of a completed `do_eval` trace is one of: a cache sync, the
insertion of the unit name, the parse step, or the evaluation step. -/
theorem do_eval_trace_acts (w : World) (s : EngineState) (c : LockCtx) (input : Src)
    (n : Filename) (r : Except Err BValue) (s2 : EngineState) (ev : List Event)
    (hr : do_eval w s c input n = some (r, s2, ev)) :
    ∀ e ∈ ev, e.act = Act.syncCache ∨ e.act = Act.insert n ∨
      e.act = Act.parseStep n input ∨ e.act = Act.evalStep n input := by
  rcases h1 : lockUnique c with _ | c1
  · simp [do_eval, h1] at hr
  · rcases hp : w.parse input with _ | _ | e1
    · rcases he : w.evalTok input with v | v | e2 <;>
        simp [do_eval, h1, hp, he] at hr <;> rw [← hr.2.2] <;> simp
    · simp [do_eval, h1, hp] at hr; rw [← hr.2.2]; simp
    · simp [do_eval, h1, hp] at hr; rw [← hr.2.2]; simp

/-- Every completed `do_eval` trace contains the parse step of its unit. -/
theorem do_eval_trace_has_parse (w : World) (s : EngineState) (c : LockCtx)
    (input : Src) (n : Filename) (r : Except Err BValue) (s2 : EngineState)
    (ev : List Event) (hr : do_eval w s c input n = some (r, s2, ev)) :
    ∃ e ∈ ev, e.act = Act.parseStep n input := by
  have h3 := do_eval_trace_head w s c input n r s2 ev hr
  have hm : Act.parseStep n input ∈ (ev.map Event.act).take 3 := by rw [h3]; simp
  have h4 : Act.parseStep n input ∈ ev.map Event.act := List.take_subset 3 _ hm
  obtain ⟨e, hmem, hact⟩ := List.mem_map.mp h4
  exact ⟨e, hmem, hact⟩

/-- C8: the constructor-time `build_eval_system` registers exactly the sixteen reserved words
`def fun while for if else && || , := var return break true false _` — each
of them and no others — and all of the registrations happen before the
evaluation of the built-in prelude source unit begins. -/
theorem build_registers_reserved_words_before_prelude (w : World) (s : EngineState)
    (d : Nat) :
    reserved_word_list.length = 16 ∧
    ∃ r s2 ev, build_eval_system w s ⟨d, false, 0⟩ = some (r, s2, ev) ∧
      ∃ pre post, ev = pre ++ post ∧
        reservedOf pre = reserved_word_list ∧
        reservedOf post = [] ∧
        (∀ e ∈ pre, isParseLike e.act = false) ∧
        (∃ e ∈ post, e.act = Act.parseStep "standard prelude" w.chaiscript_prelude) ∧
        s2.reserved_words = s.reserved_words ++ reserved_word_list := by
  refine ⟨by decide, ?_⟩
  obtain ⟨r1, s1, ev1, hd⟩ := do_eval_clean_total w
    { s with reserved_words := s.reserved_words ++ reserved_word_list } d
    w.chaiscript_prelude "standard prelude"
  refine ⟨r1, s1,
    (reserved_word_list.map (fun t => (⟨Act.addReserved t, ⟨d, false, 0⟩⟩ : Event)) ++
      (⟨Act.addObj "bootstrap", ⟨d, false, 0⟩⟩ ::
        registered_names.map (fun nm => (⟨Act.addObj nm, ⟨d, false, 0⟩⟩ : Event)))) ++ ev1,
    by simp [build_eval_system, hd],
    reserved_word_list.map (fun t => (⟨Act.addReserved t, ⟨d, false, 0⟩⟩ : Event)) ++
      (⟨Act.addObj "bootstrap", ⟨d, false, 0⟩⟩ ::
        registered_names.map (fun nm => (⟨Act.addObj nm, ⟨d, false, 0⟩⟩ : Event))),
    ev1, rfl, ?_, ?_, ?_, ?_, ?_⟩
  · simp [reservedOf, reserved_word_list, registered_names]
  · rw [reservedOf, List.filterMap_eq_nil_iff]
    intro e hmem
    rcases do_eval_trace_acts w _ _ _ _ r1 s1 ev1 hd e hmem with h | h | h | h <;>
      rw [h]
  · simp [reserved_word_list, registered_names, isParseLike]
  · exact do_eval_trace_has_parse w _ _ _ _ r1 s1 ev1 hd
  · rw [do_eval_state w _ _ _ _ r1 s1 ev1 hd]

theorem build_registers_reserved_words_before_prelude_witness :
    reserved_word_list.length = 16 ∧
    ∃ r s2 ev, build_eval_system w0 ⟨[], []⟩ ⟨0, false, 0⟩ = some (r, s2, ev) ∧
      ∃ pre post, ev = pre ++ post ∧
        reservedOf pre = reserved_word_list ∧
        reservedOf post = [] ∧
        (∀ e ∈ pre, isParseLike e.act = false) ∧
        (∃ e ∈ post, e.act = Act.parseStep "standard prelude" w0.chaiscript_prelude) ∧
        s2.reserved_words = ([] : List String) ++ reserved_word_list :=
  build_registers_reserved_words_before_prelude w0 ⟨[], []⟩ 0

/-! ## NUL truncation in `load_file` -/

theorem cstr_eq_takeWhile (v : Src) : cstr v = v.takeWhile (fun b => b ≠ 0) := by
  cases v with
  | nil => rfl
  | cons a l => simp [cstr]

theorem cstr_no_zero (v : Src) : (0 : Nat) ∉ cstr v := by
  rw [cstr_eq_takeWhile]
  intro hmem
  have := List.mem_takeWhile_imp hmem
  simp at this

theorem cstr_append_rest (v : Src) : ∃ t, cstr v ++ t = v := by
  rw [cstr_eq_takeWhile]
  exact ⟨v.dropWhile (fun b => b ≠ 0), List.takeWhile_append_dropWhile _ _⟩

theorem append_takeWhile_of_no_zero (p : Src) :
    ∀ (t v : Src), p ++ t = v → (0 : Nat) ∉ p →
      ∃ u, p ++ u = v.takeWhile (fun b => b ≠ 0) := by
  induction p with
  | nil =>
    intro t v h hz
    exact ⟨v.takeWhile (fun b => b ≠ 0), by simp⟩
  | cons a as ih =>
    intro t v h hz
    subst h
    have ha : ¬ a = 0 := by intro h0; exact hz (by simp [h0])
    have hz2 : (0 : Nat) ∉ as := by intro hm; exact hz (by simp [hm])
    obtain ⟨u, hu⟩ := ih t (as ++ t) rfl hz2
    refine ⟨u, ?_⟩
    simp only [List.cons_append, List.takeWhile_cons]
    simp [ha, hu]

theorem takeWhile_eq_self_of_no_zero (v : Src) (h : (0 : Nat) ∉ v) :
    v.takeWhile (fun b => b ≠ 0) = v := by
  induction v with
  | nil => rfl
  | cons a l ih =>
    have ha : ¬ a = 0 := by intro h0; exact h (by simp [h0])
    have h2 : (0 : Nat) ∉ l := by intro hm; exact h (by simp [hm])
    rw [List.takeWhile_cons, if_pos (by simp [ha]), ih h2]

/-- C10: for every readable file, `load_file` returns the longest prefix of
the file's bytes that contains no NUL byte: the result is a prefix of the
bytes, contains no NUL, every NUL-free prefix of the bytes is a prefix of it,
it is the whole file when no NUL is present, and it is empty for an empty
file.  Moreover `eval_file` hands exactly this truncated prefix to
`do_eval`, so only that prefix is evaluated. -/
theorem load_file_truncates_at_first_nul (w : World) (X : Filename) (bytes : Src)
    (h : w.fs X = some bytes) :
    load_file w X = Except.ok (cstr bytes) ∧
    (∃ t, cstr bytes ++ t = bytes) ∧
    ((0 : Nat) ∉ cstr bytes) ∧
    (∀ p t : Src, p ++ t = bytes → (0 : Nat) ∉ p → ∃ u, p ++ u = cstr bytes) ∧
    ((0 : Nat) ∉ bytes → cstr bytes = bytes) ∧
    (bytes = [] → cstr bytes = []) ∧
    (∀ (s : EngineState) (c : LockCtx) (r : Except Err BValue) (s2 : EngineState)
        (ev : List Event), eval_file w s c X = some (r, s2, ev) →
      ∃ ev2, ev = ⟨Act.readFile X, c⟩ :: ev2 ∧
        do_eval w s c (cstr bytes) X = some (r, s2, ev2)) := by
  refine ⟨by simp [load_file, h], cstr_append_rest bytes, cstr_no_zero bytes,
    ?_, ?_, ?_, ?_⟩
  · intro p t hpt hz
    rw [cstr_eq_takeWhile]
    exact append_takeWhile_of_no_zero p t bytes hpt hz
  · intro h0
    rw [cstr_eq_takeWhile]
    exact takeWhile_eq_self_of_no_zero bytes h0
  · intro h0
    simp [cstr, h0]
  · intro s c r s2 ev hr
    rcases hd : do_eval w s c (cstr bytes) X with _ | ⟨r1, s1, ev1⟩
    · simp [eval_file, load_file, h, hd] at hr
    · simp [eval_file, load_file, h, hd] at hr
      obtain ⟨h1, h2, h3⟩ := hr
      subst h1
      subst h2
      exact ⟨ev1, h3.symm, rfl⟩

theorem load_file_truncates_at_first_nul_witness :
    w0.fs "a.script" = some [104, 105] ∧
    load_file w0 "a.script" = Except.ok (cstr [104, 105]) ∧
    (∃ t, cstr [104, 105] ++ t = [104, 105]) ∧
    ((0 : Nat) ∉ cstr [104, 105]) :=
  ⟨rfl, (load_file_truncates_at_first_nul w0 "a.script" [104, 105] rfl).1,
   (load_file_truncates_at_first_nul w0 "a.script" [104, 105] rfl).2.1,
   (load_file_truncates_at_first_nul w0 "a.script" [104, 105] rfl).2.2.1⟩

theorem do_eval_propagates_errors_witness :
    do_eval wErr ⟨[], []⟩ ⟨0, false, 0⟩ [2] "v" =
      some (Except.error (Err.parseError "bad"), ⟨["v"], []⟩,
        [⟨Act.syncCache, ⟨0, false, 0⟩⟩, ⟨Act.insert "v", ⟨0, true, 0⟩⟩,
         ⟨Act.parseStep "v" [2], ⟨0, true, 0⟩⟩]) ∧
    ((Except.error (Err.parseError "bad") : Except Err BValue) =
        Except.error (Err.parseError "bad") ↔
      (wErr.parse [2] = ParseOutcome.thrown (Err.parseError "bad") ∨
        (wErr.parse [2] = ParseOutcome.success ∧
         wErr.evalTok [2] = EvalOutcome.thrown (Err.parseError "bad")))) :=
  ⟨rfl, do_eval_propagates_errors wErr ⟨[], []⟩ 0 [2] "v" _ _ _ (Err.parseError "bad") rfl⟩

end ChaiScript
